import Mathlib

/-!
Shallow embedding of `qlib/backtest/utils.py`: the step calendar
(`TradeCalendarManager`), the capability registry (`BaseInfrastructure` and
its variants), and the range resolver (`get_start_end_idx`).

Modelling conventions:
- Timestamps are integers counting seconds (`pd.Timedelta(seconds=1)` is the
  integer `1`); the discretized calendar is a `List Int`.
- The external calendar services `get_resam_calendar` / `Cal.locate_index`
  are out of scope and are passed in as an opaque oracle `locate` returning
  a `LocateResult`.
- Python exceptions are modelled with `Except String` (for `step`) and with
  `Option` results (for out-of-range indexing in `get_step_time`).
- Python sequence indexing `seq[i]` (which wraps negative indices) is
  modelled by `pyIndex`.
- Registry attribute storage (`setattr`/`getattr`/`hasattr`) is modelled as
  an association list where a write prepends and a read takes the first
  match, which realises the overwrite semantics of `setattr`.
-/

/-- Output of the external resampling/location service: the discretized
timestamp sequence returned by `get_resam_calendar` together with the
`start_index` / `end_index` pair returned by `Cal.locate_index`. -/
structure LocateResult where
  calendar : List Int
  start_index : Nat
  end_index : Nat
deriving Repr, DecidableEq

/-- State of `TradeCalendarManager` after a `reset`. -/
structure TradeCalendarManager where
  freq : String
  start_time : Option Int
  end_time : Option Int
  _calendar : List Int
  start_index : Nat
  end_index : Nat
  trade_len : Int
  trade_step : Int
deriving Repr, DecidableEq

/-- Python sequence indexing `l[i]`: nonnegative indices address from the
front, negative indices wrap from the back, anything else is an
`IndexError` (modelled as `none`). -/
def pyIndex (l : List Int) (i : Int) : Option Int :=
  if 0 ≤ i then l.get? i.toNat
  else if 0 ≤ i + l.length then l.get? (i + l.length).toNat
  else none

/-- `TradeCalendarManager.reset(freq, start_time, end_time)`: re-derives the
calendar and index bounds from the external service, recomputes
`trade_len = end_index - start_index + 1` and sets `trade_step = 0`.
The Python method overwrites every attribute of `self`, so the result does
not depend on the prior state and `reset` is modelled as a constructor. -/
def TradeCalendarManager.reset (locate : String → Option Int → Option Int → LocateResult)
    (freq : String) (start_time end_time : Option Int) : TradeCalendarManager :=
  let r := locate freq start_time end_time
  { freq := freq
    start_time := start_time
    end_time := end_time
    _calendar := r.calendar
    start_index := r.start_index
    end_index := r.end_index
    trade_len := (r.end_index : Int) - (r.start_index : Int) + 1
    trade_step := 0 }

/-- `finished()`: `self.trade_step >= self.trade_len`. -/
def TradeCalendarManager.finished (m : TradeCalendarManager) : Bool :=
  decide (m.trade_len ≤ m.trade_step)

/-- `step()`: raises `RuntimeError` when finished, otherwise increments
`trade_step` by one. -/
def TradeCalendarManager.step (m : TradeCalendarManager) : Except String TradeCalendarManager :=
  if m.finished then
    Except.error "The calendar is finished, please reset it if you want to call it!"
  else
    Except.ok { m with trade_step := m.trade_step + 1 }

/-- `step()` called `n` times in sequence, propagating the first error. -/
def stepN (m : TradeCalendarManager) : Nat → Except String TradeCalendarManager
  | 0 => Except.ok m
  | n + 1 => (stepN m n).bind TradeCalendarManager.step

/-- `get_trade_len()`. -/
def TradeCalendarManager.get_trade_len (m : TradeCalendarManager) : Int :=
  m.trade_len

/-- `get_trade_step()`. -/
def TradeCalendarManager.get_trade_step (m : TradeCalendarManager) : Int :=
  m.trade_step

/-- `get_step_time(trade_step, shift)`:
`trade_step = trade_step - shift`, `calendar_index = start_index + trade_step`,
returns `(calendar[calendar_index], calendar[calendar_index + 1] - 1 second)`.
An out-of-range access raises in Python and yields `none` here. -/
def TradeCalendarManager.get_step_time (m : TradeCalendarManager) (trade_step shift : Int) :
    Option (Int × Int) :=
  let ts := trade_step - shift
  let calendar_index := (m.start_index : Int) + ts
  match pyIndex m._calendar calendar_index, pyIndex m._calendar (calendar_index + 1) with
  | some a, some b => some (a, b - 1)
  | _, _ => none

/-- `get_step_time()` called with no arguments: the Python defaults are
`trade_step=0, shift=0`. -/
def TradeCalendarManager.get_step_time_default (m : TradeCalendarManager) : Option (Int × Int) :=
  m.get_step_time 0 0

/-- `get_cur_step_time()`: `self.get_step_time(self.get_trade_step())`. -/
def TradeCalendarManager.get_cur_step_time (m : TradeCalendarManager) : Option (Int × Int) :=
  m.get_step_time m.get_trade_step 0

/-- `get_all_time()`. -/
def TradeCalendarManager.get_all_time (m : TradeCalendarManager) : Option Int × Option Int :=
  (m.start_time, m.end_time)

/-- The two concrete registry variants of the file. `BaseInfrastructure`
itself leaves `get_support_infra` not implemented, so only the variants are
inhabitants. -/
inductive InfraVariant
  | common
  | level
deriving Repr, DecidableEq

/-- `get_support_infra()`: `CommonInfrastructure` supports
`trade_account` / `trade_exchange`; `LevelInfrastructure` supports
`trade_calendar` / `sub_level_infra`. -/
def get_support_infra : InfraVariant → List String
  | InfraVariant.common => ["trade_account", "trade_exchange"]
  | InfraVariant.level => ["trade_calendar", "sub_level_infra"]

/-- A registry: its variant (fixed per class) and its dynamically stored
attributes. Slot values are opaque (`α`). A write prepends; a read takes the
first match, so the list behaves as Python attribute storage. -/
structure BaseInfrastructure (α : Type) where
  variant : InfraVariant
  attrs : List (String × α)
deriving Repr, DecidableEq

/-- `getattr(self, name)` restricted to dynamically stored slots:
first match in the attribute list. -/
def lookupAttr {α : Type} (attrs : List (String × α)) (name : String) : Option α :=
  (attrs.find? (fun p => p.1 == name)).map Prod.snd

/-- `reset_infra(**kwargs)`: for each pair in order, store it when the name
is supported, otherwise warn and drop it. The function is total: the
unsupported branch only warns, it never raises. -/
def BaseInfrastructure.reset_infra {α : Type} (self : BaseInfrastructure α)
    (kwargs : List (String × α)) : BaseInfrastructure α :=
  kwargs.foldl
    (fun s kv =>
      if kv.1 ∈ get_support_infra s.variant then
        { s with attrs := (kv.1, kv.2) :: s.attrs }
      else s)
    self

/-- `get(infra_name)`: the stored value when present, otherwise a warning
and an implicit `None` (modelled as `none`). -/
def BaseInfrastructure.get {α : Type} (self : BaseInfrastructure α) (infra_name : String) :
    Option α :=
  lookupAttr self.attrs infra_name

/-- `has(infra_name)`: supported and currently stored. -/
def BaseInfrastructure.has {α : Type} (self : BaseInfrastructure α) (infra_name : String) :
    Bool :=
  decide (infra_name ∈ get_support_infra self.variant) && (lookupAttr self.attrs infra_name).isSome

/-- `update(other)`: gather every slot `other` supports and holds (in the
order of `other`'s support list, as the Python dict comprehension does) and
write them through `reset_infra`. -/
def BaseInfrastructure.update {α : Type} (self other : BaseInfrastructure α) :
    BaseInfrastructure α :=
  self.reset_infra ((get_support_infra other.variant).filterMap
    (fun k => (lookupAttr other.attrs k).map (fun v => (k, v))))

/-- An outer trade decision: `get_range_limit` either returns a pair or
raises `NotImplementedError` (modelled as `none`). -/
structure BaseTradeDecision where
  range_limit : Option (Int × Int)
deriving Repr, DecidableEq

/-- `get_range_limit()` of the decision object. -/
def BaseTradeDecision.get_range_limit (d : BaseTradeDecision) : Option (Int × Int) :=
  d.range_limit

/-- `get_start_end_idx(trade_calendar, outer_trade_decision)`: the decision's
own range limit when implemented, otherwise `(0, trade_len - 1)`. The
`NotImplementedError` case is caught, so the function is total. -/
def get_start_end_idx (trade_calendar : TradeCalendarManager)
    (outer_trade_decision : BaseTradeDecision) : Int × Int :=
  match outer_trade_decision.get_range_limit with
  | some r => r
  | none => (0, trade_calendar.get_trade_len - 1)

/-- A concrete locate oracle for witnesses: four timestamps 100 s apart,
governing indices 0..2 (so `trade_len = 3`). -/
def demoLocate : String → Option Int → Option Int → LocateResult :=
  fun _ _ _ => ⟨[0, 100, 200, 300], 0, 2⟩

/-- A freshly reset demo calendar (`trade_step = 0`, `trade_len = 3`). -/
def demoCal : TradeCalendarManager :=
  TradeCalendarManager.reset demoLocate "day" (some 0) (some 200)

/-- The demo calendar after one successful `step` (`trade_step = 1`). -/
def demoCal1 : TradeCalendarManager :=
  { demoCal with trade_step := 1 }

/-- The demo calendar in its terminal state (`trade_step = trade_len = 3`). -/
def demoCalDone : TradeCalendarManager :=
  { demoCal with trade_step := 3 }

/-- A decision object that implements `get_range_limit`. -/
def demoDecisionSome : BaseTradeDecision := ⟨some (1, 2)⟩

/-- A decision object whose `get_range_limit` raises `NotImplementedError`. -/
def demoDecisionNone : BaseTradeDecision := ⟨none⟩

/-- C1 counterexample: on a calendar advanced to cursor 1, calling
`get_step_time` with no `trade_step` argument (Python default `0`) differs
from calling it with the current step cursor. -/
theorem get_step_time_default_ne_cursor_cex :
    demoCal.step = Except.ok demoCal1 ∧
    demoCal1.get_step_time_default ≠ demoCal1.get_step_time demoCal1.get_trade_step 0 := by
  exact ⟨rfl, by decide⟩

/-- C1 (amended): `get_step_time` with no `trade_step` argument defaults to
step index 0, so it agrees with the call at the current cursor exactly when
the cursor is 0 (a fresh reset); in general the no-argument call is the
step-0 call, not the current-cursor call. -/
theorem get_step_time_default_eq_cursor_of_zero (m : TradeCalendarManager)
    (h : m.get_trade_step = 0) :
    m.get_step_time_default = m.get_step_time m.get_trade_step 0 := by
  simp [TradeCalendarManager.get_step_time_default, h]

/-- C1 witness: the amended statement at the freshly reset demo calendar. -/
theorem get_step_time_default_eq_cursor_of_zero_witness :
    demoCal.get_step_time_default = demoCal.get_step_time demoCal.get_trade_step 0 :=
  get_step_time_default_eq_cursor_of_zero demoCal (by decide)

/-- C2: `step()` raises exactly when `finished()` is true; when not
finished it returns the state with `trade_step` incremented by one and
every other field unchanged. -/
theorem step_error_iff_finished (m : TradeCalendarManager) :
    ((∃ e, m.step = Except.error e) ↔ m.finished = true) ∧
    (m.finished = false → m.step = Except.ok { m with trade_step := m.trade_step + 1 }) := by
  unfold TradeCalendarManager.step
  cases h : m.finished <;> simp [h]

/-- C2 witness: stepping the unfinished demo calendar succeeds and only
increments the cursor. -/
theorem step_error_iff_finished_witness :
    demoCal.step = Except.ok { demoCal with trade_step := demoCal.trade_step + 1 } :=
  (step_error_iff_finished demoCal).2 (by decide)

/-- C4: `get_step_time(s, shift)` equals `get_step_time(s - shift, 0)`;
the shift is pure reindexing (this holds without any validity hypothesis,
since both sides access the same calendar positions). -/
theorem get_step_time_shift_reindex (m : TradeCalendarManager) (s shift : Int) :
    m.get_step_time s shift = m.get_step_time (s - shift) 0 := by
  simp [TradeCalendarManager.get_step_time]

/-- C5: when the calendar positions `start_index + s` and
`start_index + s + 1` hold entries `a` (the open of step `s`) and `b` (the
open of step `s + 1`), `get_step_time(s, 0)` returns `(a, b - 1)`, one
minimal time unit (one second) before the next open, so the close precedes
the next open. -/
theorem get_step_time_closed_interval (m : TradeCalendarManager) (s a b : Int)
    (ha : pyIndex m._calendar ((m.start_index : Int) + s) = some a)
    (hb : pyIndex m._calendar ((m.start_index : Int) + s + 1) = some b) :
    m.get_step_time s 0 = some (a, b - 1) ∧ b - 1 < b := by
  refine ⟨?_, by omega⟩
  simp [TradeCalendarManager.get_step_time, ha, hb]

/-- C5 witness: step 0 of the demo calendar is `(0, 99)` with `99 < 100`. -/
theorem get_step_time_closed_interval_witness :
    demoCal.get_step_time 0 0 = some (0, 100 - 1) ∧ (100 : Int) - 1 < 100 :=
  get_step_time_closed_interval demoCal 0 0 100 (by decide) (by decide)

/-- C9: `get_start_end_idx` returns the decision's own `get_range_limit`
verbatim when implemented, and totally (no error) falls back to
`(0, trade_len - 1)` when the capability is absent. -/
theorem get_start_end_idx_spec (cal : TradeCalendarManager) (d : BaseTradeDecision) :
    (∀ r, d.get_range_limit = some r → get_start_end_idx cal d = r) ∧
    (d.get_range_limit = none → get_start_end_idx cal d = (0, cal.get_trade_len - 1)) := by
  cases h : d.get_range_limit <;> simp [get_start_end_idx, h]

/-- C9 witness: both branches at concrete decisions over the demo
calendar. -/
theorem get_start_end_idx_spec_witness :
    get_start_end_idx demoCal demoDecisionSome = (1, 2) ∧
    get_start_end_idx demoCal demoDecisionNone = (0, demoCal.get_trade_len - 1) :=
  ⟨(get_start_end_idx_spec demoCal demoDecisionSome).1 (1, 2) (by decide),
   (get_start_end_idx_spec demoCal demoDecisionNone).2 (by decide)⟩

/-- C10: calling `step()` on a finished calendar (with the cursor within
its invariant bound) raises the "already finished" error; since the raise
happens before any mutation, the state still has `trade_step = trade_len`
and `finished()` still returns true. -/
theorem step_on_finished_preserves_state (m : TradeCalendarManager)
    (hf : m.finished = true) (hle : m.trade_step ≤ m.trade_len) :
    m.step = Except.error "The calendar is finished, please reset it if you want to call it!" ∧
    m.trade_step = m.trade_len ∧ m.finished = true := by
  have hge : m.trade_len ≤ m.trade_step := by
    simpa [TradeCalendarManager.finished] using hf
  exact ⟨by simp [TradeCalendarManager.step, hf], le_antisymm hle hge, hf⟩

/-- C10 witness: the terminal demo calendar. -/
theorem step_on_finished_preserves_state_witness :
    demoCalDone.step =
      Except.error "The calendar is finished, please reset it if you want to call it!" ∧
    demoCalDone.trade_step = demoCalDone.trade_len ∧ demoCalDone.finished = true :=
  step_on_finished_preserves_state demoCalDone (by decide) (by decide)

/-- C6: the invariant `0 ≤ trade_step ≤ trade_len` holds right after a
`reset` whose resolved range is nonempty-or-empty-but-ordered
(`0 ≤ trade_len`), and every successful `step()` preserves it while
advancing the cursor forward by exactly one. -/
theorem trade_step_invariant (locate : String → Option Int → Option Int → LocateResult)
    (freq : String) (st et : Option Int) (m m' : TradeCalendarManager)
    (hlen : 0 ≤ (TradeCalendarManager.reset locate freq st et).trade_len) :
    (0 ≤ (TradeCalendarManager.reset locate freq st et).trade_step ∧
      (TradeCalendarManager.reset locate freq st et).trade_step ≤
        (TradeCalendarManager.reset locate freq st et).trade_len) ∧
    (0 ≤ m.trade_step → m.trade_step ≤ m.trade_len → m.step = Except.ok m' →
      0 ≤ m'.trade_step ∧ m'.trade_step ≤ m'.trade_len ∧
        m'.trade_step = m.trade_step + 1) := by
  constructor
  · exact ⟨le_refl 0, hlen⟩
  · intro h0 _ hs
    by_cases hf : m.finished = true
    · simp [TradeCalendarManager.step, hf] at hs
    · have hlt : m.trade_step < m.trade_len := by
        simp [TradeCalendarManager.finished] at hf
        omega
      rw [TradeCalendarManager.step, if_neg (by simp [hf])] at hs
      cases hs
      refine ⟨?_, ?_, rfl⟩
      · show 0 ≤ m.trade_step + 1
        omega
      · show m.trade_step + 1 ≤ m.trade_len
        omega

/-- C6 witness: the invariant at the fresh demo calendar and across its
first step. -/
theorem trade_step_invariant_witness :
    (0 ≤ demoCal.trade_step ∧ demoCal.trade_step ≤ demoCal.trade_len) ∧
    (0 ≤ demoCal1.trade_step ∧ demoCal1.trade_step ≤ demoCal1.trade_len ∧
      demoCal1.trade_step = demoCal.trade_step + 1) := by
  have h := trade_step_invariant demoLocate "day" (some 0) (some 200) demoCal demoCal1
    (by decide)
  exact ⟨h.1, h.2 (by decide) (by decide) (by rfl)⟩

/-- C7: `reset_infra` with a supported name stores the value (readable via
`get`, overwriting any earlier binding); with an unsupported name it leaves
the registry entirely unchanged — it only warns, never raises — and
`has` stays false for that name. -/
theorem reset_infra_supported_unsupported {α : Type} (r : BaseInfrastructure α)
    (name : String) (v : α) :
    (name ∈ get_support_infra r.variant → (r.reset_infra [(name, v)]).get name = some v) ∧
    (name ∉ get_support_infra r.variant →
      r.reset_infra [(name, v)] = r ∧ (r.reset_infra [(name, v)]).has name = false) := by
  constructor
  · intro h
    simp [BaseInfrastructure.reset_infra, h, BaseInfrastructure.get, lookupAttr, List.find?]
  · intro h
    have he : r.reset_infra [(name, v)] = r := by
      simp [BaseInfrastructure.reset_infra, h]
    refine ⟨he, ?_⟩
    rw [he]
    simp [BaseInfrastructure.has, h]

/-- An empty `CommonInfrastructure` over `Nat`-valued slots, for
witnesses. -/
def demoCommon : BaseInfrastructure Nat := ⟨InfraVariant.common, []⟩

/-- C7 witness: storing a supported slot succeeds; an unsupported name is
dropped without any state change. -/
theorem reset_infra_supported_unsupported_witness :
    (demoCommon.reset_infra [("trade_account", 7)]).get "trade_account" = some 7 ∧
    (demoCommon.reset_infra [("bogus", 7)] = demoCommon ∧
      (demoCommon.reset_infra [("bogus", 7)]).has "bogus" = false) :=
  ⟨(reset_infra_supported_unsupported demoCommon "trade_account" 7).1 (by decide),
   (reset_infra_supported_unsupported demoCommon "bogus" 7).2 (by decide)⟩

/-- Unfolding `reset_infra` one pair at a time. -/
theorem reset_infra_cons {α : Type} (self : BaseInfrastructure α) (kv : String × α)
    (rest : List (String × α)) :
    self.reset_infra (kv :: rest) =
      (if kv.1 ∈ get_support_infra self.variant then
        { self with attrs := (kv.1, kv.2) :: self.attrs }
      else self).reset_infra rest := by
  unfold BaseInfrastructure.reset_infra
  by_cases h : kv.1 ∈ get_support_infra self.variant
  · rw [List.foldl_cons, if_pos h]
  · rw [List.foldl_cons, if_neg h]

/-- `reset_infra` never changes the variant (the supported set is fixed per
class). -/
theorem reset_infra_variant {α : Type} (self : BaseInfrastructure α)
    (kwargs : List (String × α)) :
    (self.reset_infra kwargs).variant = self.variant := by
  induction kwargs generalizing self with
  | nil => rfl
  | cons kv rest ih =>
    rw [reset_infra_cons]
    by_cases h : kv.1 ∈ get_support_infra self.variant
    · rw [if_pos h, ih]
    · rw [if_neg h, ih]

/-- Storing under a different key does not disturb a lookup. -/
theorem lookupAttr_cons_ne {α : Type} (attrs : List (String × α)) (k name : String) (v : α)
    (h : k ≠ name) : lookupAttr ((k, v) :: attrs) name = lookupAttr attrs name := by
  simp [lookupAttr, List.find?_cons, h]

/-- `reset_infra` with no pair keyed `name` leaves `get name` unchanged. -/
theorem reset_infra_get_of_not_key {α : Type} (self : BaseInfrastructure α)
    (kwargs : List (String × α)) (name : String)
    (h : ∀ kv ∈ kwargs, kv.1 ≠ name) :
    (self.reset_infra kwargs).get name = self.get name := by
  induction kwargs generalizing self with
  | nil => rfl
  | cons kv rest ih =>
    rw [reset_infra_cons]
    by_cases hk : kv.1 ∈ get_support_infra self.variant
    · rw [if_pos hk, ih _ (fun p hp => h p (List.mem_cons_of_mem _ hp))]
      show lookupAttr ((kv.1, kv.2) :: self.attrs) name = _
      exact lookupAttr_cons_ne _ _ _ _ (h kv (List.mem_cons_self _ _))
    · rw [if_neg hk]
      exact ih _ (fun p hp => h p (List.mem_cons_of_mem _ hp))

/-- `reset_infra` over key-distinct pairs makes a supported pair readable. -/
theorem reset_infra_get_of_key {α : Type} (self : BaseInfrastructure α)
    (kwargs : List (String × α)) (name : String) (v : α)
    (hmem : (name, v) ∈ kwargs) (hsup : name ∈ get_support_infra self.variant)
    (hnd : (kwargs.map Prod.fst).Nodup) :
    (self.reset_infra kwargs).get name = some v := by
  induction kwargs generalizing self with
  | nil => cases hmem
  | cons kv rest ih =>
    rw [List.map_cons] at hnd
    have hnd1 : kv.1 ∉ rest.map Prod.fst := (List.nodup_cons.mp hnd).1
    have hnd2 : (rest.map Prod.fst).Nodup := (List.nodup_cons.mp hnd).2
    rw [reset_infra_cons]
    rcases List.mem_cons.mp hmem with heq | htail
    · subst heq
      rw [if_pos hsup]
      have hnokey : ∀ p ∈ rest, p.1 ≠ name := by
        intro p hp hcontra
        apply hnd1
        show name ∈ rest.map Prod.fst
        exact hcontra ▸ List.mem_map_of_mem Prod.fst hp
      rw [reset_infra_get_of_not_key _ _ _ hnokey]
      show lookupAttr ((name, v) :: self.attrs) name = some v
      simp [lookupAttr, List.find?_cons]
    · by_cases hk : kv.1 ∈ get_support_infra self.variant
      · rw [if_pos hk]
        exact ih _ htail hsup hnd2
      · rw [if_neg hk]
        exact ih _ htail hsup hnd2

/-- The keys gathered by `update` from the other registry form a sublist of
that registry's support list. -/
theorem filterMap_slot_keys_sublist {α : Type} (g : String → Option α) (l : List String) :
    List.Sublist ((l.filterMap (fun k => (g k).map (fun v => (k, v)))).map Prod.fst) l := by
  induction l with
  | nil => simp
  | cons a l ih =>
    cases hg : g a with
    | none =>
      rw [List.filterMap_cons, hg]
      exact ih.cons a
    | some v =>
      rw [List.filterMap_cons, hg]
      exact ih.cons₂ a

/-- Each variant's support list has no duplicate names. -/
theorem support_nodup (vt : InfraVariant) : (get_support_infra vt).Nodup := by
  cases vt <;> decide

/-- C8: after `a.update(b)`, every slot `b` supports and holds is copied
when `a` also supports it (so `a.get X = b.get X`); a slot `b` holds but
`a` does not support is dropped, leaving `a.has` false for it. -/
theorem update_copies_supported_slots {α : Type} (a b : BaseInfrastructure α) (X : String)
    (v : α) (hbsup : X ∈ get_support_infra b.variant) (hbheld : b.get X = some v) :
    (X ∈ get_support_infra a.variant → (a.update b).get X = b.get X) ∧
    (X ∉ get_support_infra a.variant → (a.update b).has X = false) := by
  constructor
  · intro hasup
    rw [hbheld]
    unfold BaseInfrastructure.update
    apply reset_infra_get_of_key
    · exact List.mem_filterMap.mpr ⟨X, hbsup, by
        rw [show lookupAttr b.attrs X = some v from hbheld]
        rfl⟩
    · exact hasup
    · exact ((support_nodup b.variant).sublist (filterMap_slot_keys_sublist _ _))
  · intro hnsup
    unfold BaseInfrastructure.has
    rw [BaseInfrastructure.update, reset_infra_variant]
    simp [hnsup]

/-- A `CommonInfrastructure` already holding `trade_account`, for
witnesses. -/
def demoCommonFull : BaseInfrastructure Nat := ⟨InfraVariant.common, [("trade_account", 7)]⟩

/-- An empty `LevelInfrastructure` over `Nat`-valued slots, for
witnesses. -/
def demoLevelEmpty : BaseInfrastructure Nat := ⟨InfraVariant.level, []⟩

/-- C8 witness: copying `trade_account` between two common registries, and
dropping it when the target is a level registry. -/
theorem update_copies_supported_slots_witness :
    (demoCommon.update demoCommonFull).get "trade_account" =
      demoCommonFull.get "trade_account" ∧
    (demoLevelEmpty.update demoCommonFull).has "trade_account" = false :=
  ⟨(update_copies_supported_slots demoCommon demoCommonFull "trade_account" 7
      (by decide) (by decide)).1 (by decide),
   (update_copies_supported_slots demoLevelEmpty demoCommonFull "trade_account" 7
      (by decide) (by decide)).2 (by decide)⟩

/-- From a cursor within range, `k` successful steps move the cursor
forward by exactly `k` and touch nothing else. -/
theorem stepN_ok (m : TradeCalendarManager) (k : Nat) (h0 : 0 ≤ m.trade_step)
    (hk : m.trade_step + (k : Int) ≤ m.trade_len) :
    stepN m k = Except.ok { m with trade_step := m.trade_step + (k : Int) } := by
  induction k with
  | zero =>
    show Except.ok m = _
    norm_num
  | succ n ih =>
    have hkn : m.trade_step + (n : Int) ≤ m.trade_len := by push_cast at hk ⊢; omega
    have hlt : ¬ m.trade_len ≤ m.trade_step + (n : Int) := by push_cast at hk; omega
    rw [stepN, ih hkn]
    show TradeCalendarManager.step _ = _
    rw [TradeCalendarManager.step,
      if_neg (by simp [TradeCalendarManager.finished]; omega)]
    congr 2
    push_cast
    ring

/-- From a zero cursor, `trade_len` steps succeed and land in the finished
state, and one further step fails. -/
theorem step_cycle_of_zero (m : TradeCalendarManager) (h : m.trade_step = 0) :
    (∃ mf, stepN m m.trade_len.toNat = Except.ok mf ∧ mf.finished = true) ∧
    (∃ e, stepN m (m.trade_len.toNat + 1) = Except.error e) := by
  rcases le_or_lt m.trade_len 0 with hle | hpos
  · have ht : m.trade_len.toNat = 0 := Int.toNat_of_nonpos hle
    have hf : m.finished = true := by
      simp [TradeCalendarManager.finished]
      omega
    rw [ht]
    refine ⟨⟨m, rfl, hf⟩, ?_⟩
    refine ⟨"The calendar is finished, please reset it if you want to call it!", ?_⟩
    show (stepN m 0).bind TradeCalendarManager.step = _
    show m.step = _
    rw [TradeCalendarManager.step, if_pos (by simp [hf])]
  · have hs := stepN_ok m m.trade_len.toNat (by omega) (by omega)
    have hfin : ({ m with trade_step := m.trade_step + (m.trade_len.toNat : Int) } :
        TradeCalendarManager).finished = true := by
      show decide (m.trade_len ≤ m.trade_step + (m.trade_len.toNat : Int)) = true
      rw [decide_eq_true_iff]
      omega
    refine ⟨⟨_, hs, hfin⟩, ?_⟩
    refine ⟨"The calendar is finished, please reset it if you want to call it!", ?_⟩
    show (stepN m m.trade_len.toNat).bind TradeCalendarManager.step = _
    rw [hs]
    show TradeCalendarManager.step _ = _
    rw [TradeCalendarManager.step, if_pos hfin]

/-- C3: immediately after `reset`, the cursor is 0,
`trade_len = end_index - start_index + 1`, and the calendar is not finished
whenever `trade_len > 0`; stepping exactly `trade_len` times from that
fresh reset reaches `finished() = true`, and the `(trade_len + 1)`-th step
fails. -/
theorem reset_then_step_cycle (locate : String → Option Int → Option Int → LocateResult)
    (freq : String) (st et : Option Int) (m : TradeCalendarManager)
    (hm : m = TradeCalendarManager.reset locate freq st et) :
    m.trade_step = 0 ∧
    m.trade_len = (m.end_index : Int) - (m.start_index : Int) + 1 ∧
    (0 < m.trade_len → m.finished = false) ∧
    (∃ mf, stepN m m.trade_len.toNat = Except.ok mf ∧ mf.finished = true) ∧
    (∃ e, stepN m (m.trade_len.toNat + 1) = Except.error e) := by
  have h0 : m.trade_step = 0 := by rw [hm]; rfl
  have hcyc := step_cycle_of_zero m h0
  refine ⟨h0, by rw [hm]; rfl, ?_, hcyc.1, hcyc.2⟩
  intro hpos
  simp [TradeCalendarManager.finished]
  omega

/-- C3 witness: the demo calendar (`trade_len = 3`) satisfies the whole
reset-and-step cycle. -/
theorem reset_then_step_cycle_witness :
    demoCal.trade_step = 0 ∧
    demoCal.trade_len = (demoCal.end_index : Int) - (demoCal.start_index : Int) + 1 ∧
    (0 < demoCal.trade_len → demoCal.finished = false) ∧
    (∃ mf, stepN demoCal demoCal.trade_len.toNat = Except.ok mf ∧ mf.finished = true) ∧
    (∃ e, stepN demoCal (demoCal.trade_len.toNat + 1) = Except.error e) :=
  reset_then_step_cycle demoLocate "day" (some 0) (some 200) demoCal rfl
